import Mathlib

/-!
Verification development for the tic-tac-toe room broker
(`src/rust_tic_tac_toe_game_server/src/room/room.rs`, together with the
shared data model in `src/server.rs` and the response types in
`src/room/response.rs`).

Modelling conventions:
* `HashMap` is embedded as an association list with the usual
  first-occurrence lookup; `hmInsert` replaces in place, `hmRemove`
  removes the (unique) occurrence of a key.
* A connection's `mpsc::UnboundedSender<String>` channel is identified by
  its `ConnectionId`; whether `tx.send` fails (the receiving half was
  dropped) is modelled by an oracle `dead : ConnectionId → Bool`.
  A send event is the pair (recipient id, payload string).
* `serde_json::to_string` is a fallible external call; it is modelled by
  an arbitrary encoder `enc : RoomResponse → Option String`, and the call
  sites keep the source's `unwrap_or_else(|_| "{}")` fallback.
* `RoomStateResponse.to_json_value` embeds the response record into a
  JSON value verbatim; the embedding keeps the structured record, since
  every property of interest concerns its fields.
* `u64` arithmetic (`wrapping_add`) is `Nat` arithmetic modulo `2 ^ 64`.
-/

namespace TicTacToe

/-- `type ConnectionId = u64` (`src/server.rs`). -/
abbrev ConnectionId := Nat

/-- Modulus for `u64` wrapping arithmetic. -/
def U64 : Nat := 2 ^ 64

/-- `enum PlayerMark { X, O }` (`src/room/response.rs`). -/
inductive PlayerMark where
  | X
  | O
deriving DecidableEq, Repr

/-- `PlayerMark::to_string` (`src/room/response.rs` lines 11-16). -/
def PlayerMark.to_string : PlayerMark → String
  | .X => "x"
  | .O => "o"

/-- Association-list lookup, modelling `HashMap::get`. -/
def hmGet {α β : Type} [DecidableEq α] : List (α × β) → α → Option β
  | [], _ => none
  | (k', v) :: rest, k => if k' = k then some v else hmGet rest k

/-- Association-list insert-or-replace, modelling `HashMap::insert`
(replaces in place when the key is present, appends otherwise). -/
def hmInsert {α β : Type} [DecidableEq α] : List (α × β) → α → β → List (α × β)
  | [], k, v => [(k, v)]
  | (k', v') :: rest, k, v =>
    if k' = k then (k, v) :: rest else (k', v') :: hmInsert rest k v

/-- Association-list removal, modelling `HashMap::remove`
(removes the first occurrence of the key, the only one for a map). -/
def hmRemove {α β : Type} [DecidableEq α] : List (α × β) → α → List (α × β)
  | [], _ => []
  | (k', v') :: rest, k => if k' = k then rest else (k', v') :: hmRemove rest k

/-- A room's membership: connection id ↦ assigned mark (the channel half of
the stored pair is identified by the connection id).  Models
`Room { connections: HashMap<ConnectionId, (UnboundedSender<String>, PlayerMark)> }`. -/
structure Room where
  connections : List (ConnectionId × PlayerMark)
deriving DecidableEq, Repr

/-- `Room::new` (`src/server.rs`). -/
def Room.new : Room := ⟨[]⟩

/-- `AppState { rooms, next_connection_id }` (`src/server.rs`). -/
structure AppState where
  rooms : List (String × Room)
  next_connection_id : ConnectionId
deriving DecidableEq, Repr

/-- The registry at process start (`start_server` in `src/server.rs`). -/
def initState : AppState := ⟨[], 0⟩

/-- `RoomStateResponse` (`src/room/response.rs` lines 20-26). -/
structure RoomStateResponse where
  room_id : String
  num_connections : Nat
  message : String
  success : Bool
  my_mark : String
deriving DecidableEq, Repr

/-- `enum ResponseType { RoomState }` (`src/room/response.rs`). -/
inductive ResponseType where
  | RoomState
deriving DecidableEq, Repr

/-- `RoomResponse { response_type, response }` (`src/room/response.rs`);
the `response` field keeps the structured record that
`RoomStateResponse::to_json_value` embeds into JSON. -/
structure RoomResponse where
  response_type : ResponseType
  response : RoomStateResponse
deriving DecidableEq, Repr

/-- Wrap a response the way every call site does:
`RoomResponse { response_type: ResponseType::RoomState, response: ... }`. -/
def mkRoomResponse (r : RoomStateResponse) : RoomResponse :=
  ⟨ResponseType.RoomState, r⟩

/-- `serde_json::to_string(&payload).unwrap_or_else(|_| "{}".to_string())`:
serialize with the given encoder, falling back to the empty JSON object. -/
def jsonOrEmpty (enc : RoomResponse → Option String) (p : RoomResponse) : String :=
  (enc p).getD "\x7b\x7d"

/-- Frames written directly on the joining websocket. -/
inductive WsOut where
  | text (payload : String)
  | close
deriving DecidableEq, Repr

/-- The room's current connection count, an absent room counting as 0
(`room.rs` lines 83-87). -/
def roomCount (st : AppState) (room_id : String) : Nat :=
  match hmGet st.rooms room_id with
  | some r => r.connections.length
  | none => 0

/-- Membership snapshot taken under the lock (`room.rs` lines 139-146 and
the analogous blocks): the room's connection list, empty when absent. -/
def snapshot (st : AppState) (room_id : String) : List (ConnectionId × PlayerMark) :=
  match hmGet st.rooms room_id with
  | some room => room.connections
  | none => []

/-- Result of the atomic check+insert (`room.rs` lines 80-107):
the tuple `(Option<ConnectionId>, count, PlayerMark)` plus the updated
registry. -/
structure ReserveResult where
  connection : Option ConnectionId
  count : Nat
  mark : PlayerMark
  state : AppState
deriving Repr

/-- The atomic join reservation (`room.rs` lines 80-107): read the count,
reject when it is already 2, otherwise allocate the next connection id
(wrapping `u64` add), pick `X` for an empty/absent room and `O` otherwise,
create the room if absent and insert the entry — all in one critical
section. -/
def reserve (st : AppState) (room_id : String) : ReserveResult :=
  let current_count := roomCount st room_id
  if 2 ≤ current_count then
    ⟨none, current_count, PlayerMark.X, st⟩
  else
    let id := st.next_connection_id
    let next := (st.next_connection_id + 1) % U64
    let assigned_mark := if current_count = 0 then PlayerMark.X else PlayerMark.O
    let room := (hmGet st.rooms room_id).getD Room.new
    let room' : Room := ⟨hmInsert room.connections id assigned_mark⟩
    ⟨some id, current_count + 1, assigned_mark,
      ⟨hmInsert st.rooms room_id room', next⟩⟩

/-- The rejection envelope (`room.rs` lines 111-117): `success=false`,
`message="Room is full"`, the pre-rejection count, and the dummy mark
`PlayerMark::X.to_string()`. -/
def rejectionResponse (room_id : String) (current_count : Nat) : RoomStateResponse :=
  ⟨room_id, current_count, "Room is full", false, PlayerMark.X.to_string⟩

/-- The frames written to a rejected socket (`room.rs` lines 124-127):
the serialized rejection envelope, then a Close frame. -/
def rejectionSocketOut (enc : RoomResponse → Option String) (room_id : String)
    (current_count : Nat) : List WsOut :=
  [WsOut.text (jsonOrEmpty enc (mkRoomResponse (rejectionResponse room_id current_count))),
   WsOut.close]

/-- Result of one broadcast loop that builds a per-recipient envelope
(join announcement, `room.rs` lines 148-166; leave announcement, lines
249-267): the envelope built for each snapshot member, the payload
actually enqueued on each member's channel (in loop order), and the ids
whose channel send failed. -/
structure FanoutResult where
  envelopes : List (ConnectionId × RoomStateResponse)
  sends : List (ConnectionId × String)
  dead_connections : List ConnectionId
deriving Repr

/-- The shared envelope fan-out loop: for each snapshot member build the
per-recipient envelope `mk mark`, serialize it with the `"\x7b\x7d"`
fallback, attempt the channel send, and record failed recipients as dead. -/
def envFanout (snap : List (ConnectionId × PlayerMark))
    (mk : PlayerMark → RoomStateResponse)
    (enc : RoomResponse → Option String) (dead : ConnectionId → Bool) : FanoutResult :=
  { envelopes := snap.map (fun p => (p.1, mk p.2))
    sends := snap.map (fun p => (p.1, jsonOrEmpty enc (mkRoomResponse (mk p.2))))
    dead_connections := (snap.filter (fun p => dead p.1)).map Prod.fst }

/-- Remove each listed connection id from the room's map and delete the
room when it becomes empty: the critical section shared by
`cleanup_dead_connections` (`room.rs` lines 61-71) — identical code also
ends `handle_join_room` (lines 274-280) for a single id. -/
def removeFromRoom (st : AppState) (room_id : String)
    (to_remove : List ConnectionId) : AppState :=
  match hmGet st.rooms room_id with
  | none => st
  | some room =>
    let conns := to_remove.foldl (fun c cid => hmRemove c cid) room.connections
    if conns.isEmpty then ⟨hmRemove st.rooms room_id, st.next_connection_id⟩
    else ⟨hmInsert st.rooms room_id ⟨conns⟩, st.next_connection_id⟩

/-- `cleanup_dead_connections` (`room.rs` lines 19-72): early return when
there is nothing to remove and nothing to announce; otherwise snapshot the
room, drop the excluded ids, optionally send the announcement (collecting
newly discovered dead ids), and remove every dead id under the lock,
deleting the room if it empties.  Returns the updated registry and the
announcement sends that were accepted by a live channel. -/
def cleanup_dead_connections (st : AppState) (room_id : String)
    (dead_connections : List ConnectionId) (announce : Option String)
    (exclude : Option (List ConnectionId)) (dead : ConnectionId → Bool) :
    AppState × List (ConnectionId × String) :=
  if dead_connections.isEmpty && announce.isNone then (st, [])
  else
    let to_remove := dead_connections
    let senders := snapshot st room_id
    let senders : List (ConnectionId × PlayerMark) :=
      match exclude with
      | some exclude_ids => senders.filter (fun p => !exclude_ids.contains p.1)
      | none => senders
    let pair : List (ConnectionId × String) × List ConnectionId :=
      match announce with
      | some msg =>
        ((senders.filter (fun p => !dead p.1)).map (fun p => (p.1, msg)),
         to_remove ++ (senders.filter (fun p => dead p.1)).map Prod.fst)
      | none => (([] : List (ConnectionId × String)), to_remove)
    let st' := if pair.2.isEmpty then st else removeFromRoom st room_id pair.2
    (st', pair.1)

/-- The per-recipient join announcement (`room.rs` lines 149-155):
`num_connections` is the snapshot length, the message is fixed, and
`my_mark` is the recipient's own mark. -/
def joinResponse (room_id : String) (n : Nat) (mark : PlayerMark) : RoomStateResponse :=
  ⟨room_id, n, "Someone joined the room", true, mark.to_string⟩

/-- The join broadcast block (`room.rs` lines 135-172): snapshot the room,
fan the per-recipient join envelope out to every member, and run the
cleanup helper when any send failed. -/
def joinBroadcast (st : AppState) (room_id : String)
    (enc : RoomResponse → Option String) (dead : ConnectionId → Bool) :
    AppState × FanoutResult :=
  let snap := snapshot st room_id
  let fr := envFanout snap (joinResponse room_id snap.length) enc dead
  let st' := if fr.dead_connections.isEmpty then st
    else (cleanup_dead_connections st room_id fr.dead_connections none none dead).1
  (st', fr)

/-- The per-recipient leave announcement (`room.rs` lines 251-257): built
from the recipient's own mark — both the message text and `my_mark` use
the `mark` bound for that recipient of the snapshot. -/
def leaveResponse (room_id : String) (n : Nat) (mark : PlayerMark) : RoomStateResponse :=
  ⟨room_id, n, "Player " ++ mark.to_string ++ " left the room", true, mark.to_string⟩

/-- The leave announcement block (`room.rs` lines 233-272): snapshot the
room excluding the departing connection, fan the per-recipient leave
envelope out, and run the cleanup helper when any send failed. -/
def leaveBroadcast (st : AppState) (room_id : String)
    (connection_id : ConnectionId)
    (enc : RoomResponse → Option String) (dead : ConnectionId → Bool) :
    AppState × FanoutResult :=
  let senders := (snapshot st room_id).filter (fun p => p.1 != connection_id)
  let fr := envFanout senders (leaveResponse room_id senders.length) enc dead
  let st' := if fr.dead_connections.isEmpty then st
    else (cleanup_dead_connections st room_id fr.dead_connections none none dead).1
  (st', fr)

/-- The relay fan-out for one inbound text frame (`room.rs` lines
198-220): snapshot the room (the sender included), enqueue the exact text
on every member's channel with no envelope, and run the cleanup helper
when any send failed.  Returns the updated registry, the attempted sends,
and the dead ids. -/
def relayBroadcast (st : AppState) (room_id : String) (text : String)
    (dead : ConnectionId → Bool) :
    AppState × List (ConnectionId × String) × List ConnectionId :=
  let snap := snapshot st room_id
  let sends := snap.map (fun p => (p.1, text))
  let dead_connections := (snap.filter (fun p => dead p.1)).map Prod.fst
  let st' := if dead_connections.isEmpty then st
    else (cleanup_dead_connections st room_id dead_connections none none dead).1
  (st', sends, dead_connections)

/-- The final removal at session teardown (`room.rs` lines 274-280):
remove the departing connection and delete the room if it is now empty. -/
def remove_connection (st : AppState) (room_id : String)
    (connection_id : ConnectionId) : AppState :=
  match hmGet st.rooms room_id with
  | none => st
  | some room =>
    let conns := hmRemove room.connections connection_id
    if conns.isEmpty then ⟨hmRemove st.rooms room_id, st.next_connection_id⟩
    else ⟨hmInsert st.rooms room_id ⟨conns⟩, st.next_connection_id⟩

/-- A websocket frame as seen by the inbound loop. -/
inductive Frame where
  | text (s : String)
  | binary
  | ping
  | pong
  | close
deriving DecidableEq, Repr

/-- One item produced by `receiver.next()`: `Ok(frame)` or a transport
read error. -/
inductive RecvItem where
  | ok (f : Frame)
  | fail
deriving DecidableEq, Repr

/-- The inbound relay loop (`room.rs` lines 189-226) over a finite stream
of received items: a read error breaks the loop; an `Ok` text frame is
relayed to the whole room; any other `Ok` frame is ignored and the loop
continues.  Returns the final registry, the number of items consumed, and
the list of relayed texts in order. -/
def recv_loop (st : AppState) (room_id : String) (dead : ConnectionId → Bool) :
    List RecvItem → AppState × Nat × List String
  | [] => (st, 0, [])
  | .fail :: _ => (st, 1, [])
  | .ok (.text s) :: rest =>
    let st' := (relayBroadcast st room_id s dead).1
    let r := recv_loop st' room_id dead rest
    (r.1, r.2.1 + 1, s :: r.2.2)
  | .ok _ :: rest =>
    let r := recv_loop st room_id dead rest
    (r.1, r.2.1 + 1, r.2.2)

/-- Everything `handle_join_room` (`room.rs` lines 74-187) does before the
relay loops: the reservation, then either the rejection path (lines
109-129: rejection envelope, Text + Close on the socket, early return —
no relay tasks are spawned) or the join broadcast (lines 134-172) with
`loops_started` marking that the two relay tasks are then spawned. -/
structure JoinOutcome where
  state : AppState
  socket_out : List WsOut
  rejection : Option RoomStateResponse
  admitted : Option (ConnectionId × PlayerMark)
  join_fanout : FanoutResult
  loops_started : Bool
deriving Repr

/-- The join phase of `handle_join_room` (`room.rs` lines 74-187). -/
def handle_join_entry (st : AppState) (room_id : String)
    (enc : RoomResponse → Option String) (dead : ConnectionId → Bool) : JoinOutcome :=
  let r := reserve st room_id
  match r.connection with
  | none =>
    { state := r.state
      socket_out := rejectionSocketOut enc room_id r.count
      rejection := some (rejectionResponse room_id r.count)
      admitted := none
      join_fanout := ⟨[], [], []⟩
      loops_started := false }
  | some id =>
    let p := joinBroadcast r.state room_id enc dead
    { state := p.1
      socket_out := []
      rejection := none
      admitted := some (id, r.mark)
      join_fanout := p.2
      loops_started := true }

/-- The teardown phase of `handle_join_room` (`room.rs` lines 233-280):
the leave announcement to the others, then the final removal of the
departing connection. -/
def session_teardown (st : AppState) (room_id : String)
    (connection_id : ConnectionId)
    (enc : RoomResponse → Option String) (dead : ConnectionId → Bool) :
    AppState × FanoutResult :=
  let p := leaveBroadcast st room_id connection_id enc dead
  (remove_connection p.1 room_id connection_id, p.2)

/-! ### Association-list lemmas -/

theorem hmGet_hmInsert_self {α β : Type} [DecidableEq α]
    (l : List (α × β)) (k : α) (v : β) : hmGet (hmInsert l k v) k = some v := by
  induction l with
  | nil => simp [hmInsert, hmGet]
  | cons hd tl ih =>
    by_cases h : hd.1 = k
    · simp [hmInsert, hmGet, h]
    · simpa [hmInsert, hmGet, h] using ih

theorem mem_hmInsert {α β : Type} [DecidableEq α]
    {l : List (α × β)} {k : α} {v : β} {p : α × β}
    (hp : p ∈ hmInsert l k v) : p = (k, v) ∨ p ∈ l := by
  induction l with
  | nil => simpa [hmInsert] using hp
  | cons hd tl ih =>
    by_cases h : hd.1 = k
    · rcases (by simpa [hmInsert, h] using hp : p = (k, v) ∨ p ∈ tl) with h' | h'
      · exact Or.inl h'
      · exact Or.inr (List.mem_cons_of_mem _ h')
    · rcases (by simpa [hmInsert, h] using hp : p = hd ∨ p ∈ hmInsert tl k v) with h' | h'
      · exact Or.inr (h' ▸ List.mem_cons_self _ _)
      · rcases ih h' with h'' | h''
        · exact Or.inl h''
        · exact Or.inr (List.mem_cons_of_mem _ h'')

theorem mem_hmInsert_self {α β : Type} [DecidableEq α]
    (l : List (α × β)) (k : α) (v : β) : (k, v) ∈ hmInsert l k v := by
  induction l with
  | nil => simp [hmInsert]
  | cons hd tl ih =>
    by_cases h : hd.1 = k
    · simp [hmInsert, h]
    · simp only [hmInsert, if_neg h]
      exact List.mem_cons_of_mem _ ih

theorem hmInsert_ne_nil {α β : Type} [DecidableEq α]
    (l : List (α × β)) (k : α) (v : β) : hmInsert l k v ≠ [] := by
  cases l with
  | nil => simp [hmInsert]
  | cons hd tl =>
    by_cases h : hd.1 = k <;> simp [hmInsert, h]

theorem length_hmInsert_le {α β : Type} [DecidableEq α]
    (l : List (α × β)) (k : α) (v : β) :
    (hmInsert l k v).length ≤ l.length + 1 := by
  induction l with
  | nil => simp [hmInsert]
  | cons hd tl ih =>
    by_cases h : hd.1 = k
    · simp [hmInsert, h]
    · simpa [hmInsert, h, Nat.succ_le_succ_iff] using ih

theorem length_hmRemove_le {α β : Type} [DecidableEq α]
    (l : List (α × β)) (k : α) : (hmRemove l k).length ≤ l.length := by
  induction l with
  | nil => simp [hmRemove]
  | cons hd tl ih =>
    by_cases h : hd.1 = k
    · simp [hmRemove, h, Nat.le_succ_of_le]
    · simpa [hmRemove, h, Nat.succ_le_succ_iff] using ih

theorem length_foldl_hmRemove_le {α β : Type} [DecidableEq α]
    (ids : List α) (l : List (α × β)) :
    (ids.foldl (fun c cid => hmRemove c cid) l).length ≤ l.length := by
  induction ids generalizing l with
  | nil => simp
  | cons hd tl ih =>
    exact le_trans (ih (hmRemove l hd)) (length_hmRemove_le l hd)

theorem hmGet_mem {α β : Type} [DecidableEq α]
    {l : List (α × β)} {k : α} {v : β} (h : hmGet l k = some v) : (k, v) ∈ l := by
  induction l with
  | nil => simp [hmGet] at h
  | cons hd tl ih =>
    by_cases h' : hd.1 = k
    · have hv : hd.2 = v := by simpa [hmGet, h'] using h
      rw [← h', ← hv]
      simp
    · exact List.mem_cons_of_mem _ (ih (by simpa [hmGet, h'] using h))

theorem hmRemove_absent {α β : Type} [DecidableEq α]
    {l : List (α × β)} {k : α} (h : hmGet l k = none) : hmRemove l k = l := by
  induction l with
  | nil => simp [hmRemove]
  | cons hd tl ih =>
    by_cases h' : hd.1 = k
    · simp [hmGet, h'] at h
    · simp only [hmRemove, if_neg h']
      rw [ih (by simpa [hmGet, h'] using h)]

theorem hmInsert_same {α β : Type} [DecidableEq α]
    {l : List (α × β)} {k : α} {v : β} (h : hmGet l k = some v) :
    hmInsert l k v = l := by
  induction l with
  | nil => simp [hmGet] at h
  | cons hd tl ih =>
    by_cases h' : hd.1 = k
    · have hv : hd.2 = v := by simpa [hmGet, h'] using h
      simp only [hmInsert, if_pos h']
      rw [← h', ← hv]
    · simp only [hmInsert, if_neg h']
      rw [ih (by simpa [hmGet, h'] using h)]

theorem hmGet_none_of_key_not_mem {α β : Type} [DecidableEq α]
    {l : List (α × β)} {k : α} (h : k ∉ l.map Prod.fst) : hmGet l k = none := by
  induction l with
  | nil => simp [hmGet]
  | cons hd tl ih =>
    simp only [List.map_cons, List.mem_cons, not_or] at h
    have hne : hd.1 ≠ k := fun hh => h.1 hh.symm
    simp only [hmGet, if_neg hne]
    exact ih h.2

theorem filter_key_ne_of_not_mem {β : Type}
    (l : List (ConnectionId × β)) (cid : ConnectionId)
    (h : cid ∉ l.map Prod.fst) : l.filter (fun p => p.1 != cid) = l := by
  apply List.filter_eq_self.mpr
  intro p hp
  have hne : p.1 ≠ cid := by
    intro hc
    exact h (hc ▸ List.mem_map_of_mem Prod.fst hp)
  simpa using hne

theorem length_pos_of_hmGet {α β : Type} [DecidableEq α]
    {l : List (α × β)} {k : α} (h : hmGet l k ≠ none) : 1 ≤ l.length := by
  cases l with
  | nil => simp [hmGet] at h
  | cons hd tl => simp

theorem length_filter_key_ne {β : Type}
    (l : List (ConnectionId × β)) (cid : ConnectionId)
    (hnd : (l.map Prod.fst).Nodup) (hmem : hmGet l cid ≠ none) :
    (l.filter (fun p => p.1 != cid)).length = l.length - 1 := by
  induction l with
  | nil => simp [hmGet] at hmem
  | cons hd tl ih =>
    simp only [List.map_cons, List.nodup_cons] at hnd
    by_cases h : hd.1 = cid
    · have hfil : tl.filter (fun p => p.1 != cid) = tl :=
        filter_key_ne_of_not_mem tl cid (h ▸ hnd.1)
      have hhd : (hd.1 != cid) = false := by simp [h]
      simp [List.filter_cons, hhd, hfil]
    · have hmem' : hmGet tl cid ≠ none := by
        simpa [hmGet, h] using hmem
      have hpos : 1 ≤ tl.length := length_pos_of_hmGet hmem'
      have hhd : (hd.1 != cid) = true := by simpa using h
      simp only [List.filter_cons, hhd, if_true, List.length_cons, ih hnd.2 hmem']
      omega

/-! ### Registry invariant and reachability -/

/-- The registry invariant of the spec: every room present in the mapping
holds between 1 and 2 connections. -/
def Inv (st : AppState) : Prop :=
  ∀ p ∈ st.rooms, 1 ≤ p.2.connections.length ∧ p.2.connections.length ≤ 2

/-- The operations a connection session performs on the shared registry. -/
inductive Op where
  | join (room_id : String) (enc : RoomResponse → Option String)
      (dead : ConnectionId → Bool)
  | relayFrames (room_id : String) (items : List RecvItem)
      (dead : ConnectionId → Bool)
  | cleanup (room_id : String) (deads : List ConnectionId)
      (announce : Option String) (exclude : Option (List ConnectionId))
      (dead : ConnectionId → Bool)
  | teardown (room_id : String) (cid : ConnectionId)
      (enc : RoomResponse → Option String) (dead : ConnectionId → Bool)

/-- The registry after one operation. -/
def applyOp (st : AppState) : Op → AppState
  | .join rid enc dead => (handle_join_entry st rid enc dead).state
  | .relayFrames rid items dead => (recv_loop st rid dead items).1
  | .cleanup rid ds ann ex dead => (cleanup_dead_connections st rid ds ann ex dead).1
  | .teardown rid cid enc dead => (session_teardown st rid cid enc dead).1

/-- Registry states reachable from process start by broker operations. -/
inductive Reachable : AppState → Prop
  | init : Reachable initState
  | step {st : AppState} (h : Reachable st) (op : Op) : Reachable (applyOp st op)

theorem getD_connections_length (st : AppState) (rid : String) :
    ((hmGet st.rooms rid).getD Room.new).connections.length = roomCount st rid := by
  unfold roomCount
  cases hmGet st.rooms rid <;> simp [Room.new]

theorem reserve_full {st : AppState} {rid : String} (h : 2 ≤ roomCount st rid) :
    reserve st rid = ⟨none, roomCount st rid, PlayerMark.X, st⟩ := by
  simp [reserve, h]

theorem reserve_ok {st : AppState} {rid : String} (h : ¬ 2 ≤ roomCount st rid) :
    reserve st rid =
      ⟨some st.next_connection_id, roomCount st rid + 1,
       if roomCount st rid = 0 then PlayerMark.X else PlayerMark.O,
       ⟨hmInsert st.rooms rid
          ⟨hmInsert ((hmGet st.rooms rid).getD Room.new).connections
             st.next_connection_id
             (if roomCount st rid = 0 then PlayerMark.X else PlayerMark.O)⟩,
        (st.next_connection_id + 1) % U64⟩⟩ := by
  simp [reserve, h]

theorem mem_hmRemove {α β : Type} [DecidableEq α]
    {l : List (α × β)} {k : α} {p : α × β} (hp : p ∈ hmRemove l k) : p ∈ l := by
  induction l with
  | nil => simp [hmRemove] at hp
  | cons hd tl ih =>
    by_cases h : hd.1 = k
    · exact List.mem_cons_of_mem _ (by simpa [hmRemove, h] using hp)
    · rcases (by simpa [hmRemove, h] using hp : p = hd ∨ p ∈ hmRemove tl k) with h' | h'
      · exact h' ▸ List.mem_cons_self _ _
      · exact List.mem_cons_of_mem _ (ih h')

theorem inv_reserve {st : AppState} (rid : String) (h : Inv st) :
    Inv (reserve st rid).state := by
  by_cases hc : 2 ≤ roomCount st rid
  · rw [reserve_full hc]
    exact h
  · rw [reserve_ok hc]
    intro p hp
    rcases mem_hmInsert hp with h' | h'
    · subst h'
      constructor
      · have := hmInsert_ne_nil ((hmGet st.rooms rid).getD Room.new).connections
          st.next_connection_id (if roomCount st rid = 0 then PlayerMark.X else PlayerMark.O)
        simpa [Nat.succ_le_iff, List.length_pos] using this
      · have hle := length_hmInsert_le ((hmGet st.rooms rid).getD Room.new).connections
          st.next_connection_id (if roomCount st rid = 0 then PlayerMark.X else PlayerMark.O)
        have hcount := getD_connections_length st rid
        dsimp only
        omega
    · exact h p h'

theorem inv_removeFromRoom {st : AppState} (rid : String)
    (ids : List ConnectionId) (h : Inv st) : Inv (removeFromRoom st rid ids) := by
  unfold removeFromRoom
  cases hroom : hmGet st.rooms rid with
  | none => exact h
  | some room =>
    simp only
    split
    · intro p hp
      exact h p (mem_hmRemove hp)
    · next hne =>
      intro p hp
      rcases mem_hmInsert hp with h' | h'
      · subst h'
        constructor
        · simpa [Nat.succ_le_iff, List.length_pos, List.isEmpty_iff] using hne
        · have h1 := length_foldl_hmRemove_le ids room.connections
          have h2 := (h _ (hmGet_mem hroom)).2
          dsimp only at h2 ⊢
          omega
      · exact h p h'

theorem inv_remove_connection {st : AppState} (rid : String)
    (cid : ConnectionId) (h : Inv st) : Inv (remove_connection st rid cid) := by
  unfold remove_connection
  cases hroom : hmGet st.rooms rid with
  | none => exact h
  | some room =>
    simp only
    split
    · intro p hp
      exact h p (mem_hmRemove hp)
    · next hne =>
      intro p hp
      rcases mem_hmInsert hp with h' | h'
      · subst h'
        constructor
        · simpa [Nat.succ_le_iff, List.length_pos, List.isEmpty_iff] using hne
        · have h1 := length_hmRemove_le room.connections cid
          have h2 := (h _ (hmGet_mem hroom)).2
          dsimp only at h2 ⊢
          omega
      · exact h p h'

theorem inv_cleanup {st : AppState} (rid : String) (ds : List ConnectionId)
    (ann : Option String) (ex : Option (List ConnectionId))
    (dead : ConnectionId → Bool) (h : Inv st) :
    Inv (cleanup_dead_connections st rid ds ann ex dead).1 := by
  by_cases h0 : ds.isEmpty && ann.isNone
  · simpa [cleanup_dead_connections, h0] using h
  · simp only [cleanup_dead_connections, h0, Bool.false_eq_true, if_false]
    split
    · exact h
    · exact inv_removeFromRoom _ _ h

theorem inv_joinBroadcast {st : AppState} (rid : String)
    (enc : RoomResponse → Option String) (dead : ConnectionId → Bool)
    (h : Inv st) : Inv (joinBroadcast st rid enc dead).1 := by
  simp only [joinBroadcast]
  split
  · exact h
  · exact inv_cleanup _ _ _ _ _ h

theorem inv_leaveBroadcast {st : AppState} (rid : String) (cid : ConnectionId)
    (enc : RoomResponse → Option String) (dead : ConnectionId → Bool)
    (h : Inv st) : Inv (leaveBroadcast st rid cid enc dead).1 := by
  simp only [leaveBroadcast]
  split
  · exact h
  · exact inv_cleanup _ _ _ _ _ h

theorem inv_relayBroadcast {st : AppState} (rid : String) (text : String)
    (dead : ConnectionId → Bool) (h : Inv st) :
    Inv (relayBroadcast st rid text dead).1 := by
  simp only [relayBroadcast]
  split
  · exact h
  · exact inv_cleanup _ _ _ _ _ h

theorem inv_handle_join_entry {st : AppState} (rid : String)
    (enc : RoomResponse → Option String) (dead : ConnectionId → Bool)
    (h : Inv st) : Inv (handle_join_entry st rid enc dead).state := by
  unfold handle_join_entry
  cases hr : (reserve st rid).connection with
  | none =>
    simp only [hr]
    exact inv_reserve rid h
  | some id =>
    simp only [hr]
    exact inv_joinBroadcast _ _ _ (inv_reserve rid h)

theorem inv_recv_loop {st : AppState} (rid : String)
    (dead : ConnectionId → Bool) (items : List RecvItem) (h : Inv st) :
    Inv (recv_loop st rid dead items).1 := by
  induction items generalizing st with
  | nil => exact h
  | cons hd tl ih =>
    cases hd with
    | fail => exact h
    | ok f =>
      cases f with
      | text s => exact ih (inv_relayBroadcast _ _ _ h)
      | binary => exact ih h
      | ping => exact ih h
      | pong => exact ih h
      | close => exact ih h

theorem inv_session_teardown {st : AppState} (rid : String)
    (cid : ConnectionId) (enc : RoomResponse → Option String)
    (dead : ConnectionId → Bool) (h : Inv st) :
    Inv (session_teardown st rid cid enc dead).1 := by
  simp only [session_teardown]
  exact inv_remove_connection _ _ (inv_leaveBroadcast _ _ _ _ h)

theorem inv_applyOp {st : AppState} (op : Op) (h : Inv st) :
    Inv (applyOp st op) := by
  cases op with
  | join rid enc dead => exact inv_handle_join_entry rid enc dead h
  | relayFrames rid items dead => exact inv_recv_loop rid dead items h
  | cleanup rid ds ann ex dead => exact inv_cleanup rid ds ann ex dead h
  | teardown rid cid enc dead =>
    exact inv_session_teardown rid cid enc dead h

theorem inv_of_reachable {st : AppState} (h : Reachable st) : Inv st := by
  induction h with
  | init => intro p hp; simp [initState] at hp
  | step _ op ih => exact inv_applyOp op ih

/-! ### Concrete test fixtures -/

/-- An encoder that always fails, exercising the serialization fallback. -/
def encNone : RoomResponse → Option String := fun _ => none

/-- An encoder that always succeeds (the payload itself is irrelevant to
the properties; this one returns the wrapped message). -/
def encOk : RoomResponse → Option String := fun p => some p.response.message

/-- A channel oracle under which every send succeeds. -/
def liveAll : ConnectionId → Bool := fun _ => false

/-- A registry holding room `"r1"` with the single connection 0 marked X. -/
def stX : AppState := ⟨[("r1", ⟨[(0, PlayerMark.X)]⟩)], 1⟩

/-- A registry holding room `"r1"` with connections 0 ↦ X and 1 ↦ O. -/
def stXO : AppState := ⟨[("r1", ⟨[(0, PlayerMark.X), (1, PlayerMark.O)]⟩)], 2⟩

/-! ### Claim theorems -/

/-- C1: for every join request, a room with current connection count 0
admits the connection with marker `first` (`X`, rendered `"x"`); count 1
admits it with marker `second` (`O`, rendered `"o"`); count ≥ 2 rejects
the join (`connection = none`, the `RoomFull` outcome) and inserts
nothing — the registry is unchanged. -/
theorem join_capacity_and_mark_assignment (st : AppState) (room_id : String) :
    (roomCount st room_id = 0 →
      (reserve st room_id).connection = some st.next_connection_id ∧
      (reserve st room_id).mark = PlayerMark.X ∧
      hmGet ((reserve st room_id).state.rooms) room_id ≠ none ∧
      (∀ room', hmGet ((reserve st room_id).state.rooms) room_id = some room' →
        hmGet room'.connections st.next_connection_id = some PlayerMark.X)) ∧
    (roomCount st room_id = 1 →
      (reserve st room_id).connection = some st.next_connection_id ∧
      (reserve st room_id).mark = PlayerMark.O ∧
      (∀ room', hmGet ((reserve st room_id).state.rooms) room_id = some room' →
        hmGet room'.connections st.next_connection_id = some PlayerMark.O)) ∧
    (2 ≤ roomCount st room_id →
      (reserve st room_id).connection = none ∧ (reserve st room_id).state = st) ∧
    PlayerMark.X.to_string = "x" ∧ PlayerMark.O.to_string = "o" := by
  refine ⟨?_, ?_, ?_, rfl, rfl⟩
  · intro h0
    have hc : ¬ 2 ≤ roomCount st room_id := by omega
    rw [reserve_ok hc]
    dsimp only
    rw [hmGet_hmInsert_self]
    refine ⟨rfl, by simp [h0], by simp, ?_⟩
    intro room' hroom'
    have : room' = ⟨hmInsert ((hmGet st.rooms room_id).getD Room.new).connections
        st.next_connection_id
        (if roomCount st room_id = 0 then PlayerMark.X else PlayerMark.O)⟩ := by
      injection hroom' with h
      exact h.symm
    subst this
    simp only [h0, if_pos rfl]
    exact hmGet_hmInsert_self _ _ _
  · intro h1
    have hc : ¬ 2 ≤ roomCount st room_id := by omega
    rw [reserve_ok hc]
    dsimp only
    rw [hmGet_hmInsert_self]
    refine ⟨rfl, by simp [h1], ?_⟩
    intro room' hroom'
    have : room' = ⟨hmInsert ((hmGet st.rooms room_id).getD Room.new).connections
        st.next_connection_id
        (if roomCount st room_id = 0 then PlayerMark.X else PlayerMark.O)⟩ := by
      injection hroom' with h
      exact h.symm
    subst this
    simp only [h1]
    simp only [Nat.one_ne_zero, if_false]
    exact hmGet_hmInsert_self _ _ _
  · intro h2
    rw [reserve_full h2]
    exact ⟨rfl, rfl⟩

/-- Witness for C1 at the concrete registries: the fresh room admits
connection 0 with `X`, the one-member room admits with `O`, the
two-member room rejects and is left unchanged. -/
theorem join_capacity_and_mark_assignment_witness :
    ((reserve initState "r1").connection = some 0 ∧
      (reserve initState "r1").mark = PlayerMark.X) ∧
    (reserve stX "r1").mark = PlayerMark.O ∧
    ((reserve stXO "r1").connection = none ∧ (reserve stXO "r1").state = stXO) := by
  have h0 := (join_capacity_and_mark_assignment initState "r1").1 (by decide)
  have h1 := ((join_capacity_and_mark_assignment stX "r1").2.1) (by decide)
  have h2 := ((join_capacity_and_mark_assignment stXO "r1").2.2.1) (by decide)
  exact ⟨⟨h0.1, h0.2.1⟩, h1.2.1, h2⟩

/-- C2: in every reachable registry state a room identifier is present
only while its room holds at least one connection (no operation leaves an
empty room behind — each removal site deletes the room in the same
critical section that empties it), and every present room holds at most
two connections.  The converse direction of the iff is immediate: a room
holding a connection is by construction an entry of the mapping. -/
theorem registry_rooms_nonempty_and_capped (st : AppState) (h : Reachable st) :
    (∀ p ∈ st.rooms, 1 ≤ p.2.connections.length ∧ p.2.connections.length ≤ 2) ∧
    (∀ rid room, hmGet st.rooms rid = some room → room.connections ≠ []) := by
  have hi := inv_of_reachable h
  refine ⟨hi, ?_⟩
  intro rid room hget hnil
  have h1 := (hi _ (hmGet_mem hget)).1
  rw [hnil] at h1
  simp at h1

/-- Witness for C2 at the state reached by one join to a fresh room. -/
theorem registry_rooms_nonempty_and_capped_witness :
    (∀ p ∈ (applyOp initState (Op.join "r1" encOk liveAll)).rooms,
       1 ≤ p.2.connections.length ∧ p.2.connections.length ≤ 2) ∧
    (∀ rid room,
       hmGet (applyOp initState (Op.join "r1" encOk liveAll)).rooms rid = some room →
       room.connections ≠ []) :=
  registry_rooms_nonempty_and_capped _
    (Reachable.step Reachable.init (Op.join "r1" encOk liveAll))

/-- C3 counterexample: in room `"r1"` holding 0 ↦ X and 1 ↦ O, connection 0
(marker rendered `"x"`) departs.  The one leave envelope, addressed to
connection 1, carries the message `"Player o left the room"` — it names
the recipient's own marker, not the departing connection's marker `"x"`,
so the claim's "message naming the departing connection's marker" fails
here. -/
theorem leave_broadcast_names_recipient_counterexample :
    hmGet stXO.rooms "r1" = some ⟨[(0, PlayerMark.X), (1, PlayerMark.O)]⟩ ∧
    hmGet ([(0, PlayerMark.X), (1, PlayerMark.O)] : List (ConnectionId × PlayerMark)) 0 =
      some PlayerMark.X ∧
    (leaveBroadcast stXO "r1" 0 encOk liveAll).2.envelopes =
      [(1, ⟨"r1", 1, "Player o left the room", true, "o"⟩)] ∧
    "Player o left the room" ≠
      "Player " ++ PlayerMark.X.to_string ++ " left the room" := by
  refine ⟨by decide, by decide, by decide, by decide⟩

/-- C3 (amended): when a connection's session terminates, a leave
envelope is built for every other current member of the room; each has
`success = true`, `num_connections` equal to the pre-removal membership
size minus one, `my_mark` equal to that recipient's own marker, and a
message naming the *recipient's own* marker (not the departing
connection's). -/
theorem leave_broadcast_per_recipient (st : AppState) (room_id : String)
    (cid : ConnectionId) (enc : RoomResponse → Option String)
    (dead : ConnectionId → Bool) (room : Room)
    (hroom : hmGet st.rooms room_id = some room)
    (hnd : (room.connections.map Prod.fst).Nodup)
    (hcid : hmGet room.connections cid ≠ none) :
    (leaveBroadcast st room_id cid enc dead).2.envelopes =
      (room.connections.filter (fun p => p.1 != cid)).map
        (fun p => (p.1, ⟨room_id, room.connections.length - 1,
          "Player " ++ p.2.to_string ++ " left the room", true,
          p.2.to_string⟩)) := by
  unfold leaveBroadcast envFanout
  dsimp only
  rw [snapshot, hroom]
  rw [length_filter_key_ne room.connections cid hnd hcid]
  simp [leaveResponse]

/-- Witness for C3 (amended) at the two-member room with connection 0
departing. -/
theorem leave_broadcast_per_recipient_witness :
    (leaveBroadcast stXO "r1" 0 encOk liveAll).2.envelopes =
      (([(0, PlayerMark.X), (1, PlayerMark.O)] :
          List (ConnectionId × PlayerMark)).filter (fun p => p.1 != 0)).map
        (fun p => (p.1, ⟨"r1", 1,
          "Player " ++ p.2.to_string ++ " left the room", true,
          p.2.to_string⟩)) :=
  leave_broadcast_per_recipient stXO "r1" 0 encOk liveAll
    ⟨[(0, PlayerMark.X), (1, PlayerMark.O)]⟩ (by decide) (by decide) (by decide)

/-- C4: after every successful join, a join envelope is built for every
current member of the (post-join) room — the new connection included,
as its entry is inserted before the snapshot is taken — and each
recipient's envelope has `success = true`, message
`"Someone joined the room"`, `num_connections` equal to the post-join
membership size, and `my_mark` equal to that recipient's own marker. -/
theorem join_broadcast_per_recipient (st : AppState) (room_id : String)
    (enc : RoomResponse → Option String) (dead : ConnectionId → Bool)
    (id : ConnectionId) (mark : PlayerMark)
    (h : (handle_join_entry st room_id enc dead).admitted = some (id, mark)) :
    (handle_join_entry st room_id enc dead).join_fanout.envelopes =
      (snapshot (reserve st room_id).state room_id).map
        (fun p => (p.1, ⟨room_id,
          (snapshot (reserve st room_id).state room_id).length,
          "Someone joined the room", true, p.2.to_string⟩)) ∧
    (id, mark) ∈ snapshot (reserve st room_id).state room_id := by
  by_cases hc : 2 ≤ roomCount st room_id
  · exfalso
    simp [handle_join_entry, reserve_full hc] at h
  · constructor
    · simp [handle_join_entry, reserve_ok hc, joinBroadcast, envFanout, joinResponse]
    · have hr := reserve_ok hc
      simp [handle_join_entry, hr] at h
      obtain ⟨hid, hmark⟩ := h
      subst hid
      subst hmark
      rw [hr]
      dsimp only
      simp only [snapshot, hmGet_hmInsert_self]
      exact mem_hmInsert_self _ _ _

/-- Witness for C4: the second connection joining room `"r1"` is admitted
as (1, O) and the join envelopes cover both members of the post-join
snapshot, the joiner included. -/
theorem join_broadcast_per_recipient_witness :
    (handle_join_entry stX "r1" encOk liveAll).join_fanout.envelopes =
      (snapshot (reserve stX "r1").state "r1").map
        (fun p => (p.1, ⟨"r1",
          (snapshot (reserve stX "r1").state "r1").length,
          "Someone joined the room", true, p.2.to_string⟩)) ∧
    ((1 : ConnectionId), PlayerMark.O) ∈ snapshot (reserve stX "r1").state "r1" :=
  join_broadcast_per_recipient stX "r1" encOk liveAll 1 PlayerMark.O (by decide)

/-- C5: a join rejected on capacity leaves the registry untouched, sends
the rejected client exactly one envelope — `success = false`, message
`"Room is full"`, `num_connections` equal to the pre-rejection count, the
placeholder marker — immediately followed by a Close frame, admits no
connection, starts no relay loops, and fans nothing out to the room. -/
theorem room_full_rejection (st : AppState) (room_id : String)
    (enc : RoomResponse → Option String) (dead : ConnectionId → Bool)
    (h : 2 ≤ roomCount st room_id) :
    (handle_join_entry st room_id enc dead).state = st ∧
    (handle_join_entry st room_id enc dead).rejection =
      some ⟨room_id, roomCount st room_id, "Room is full", false,
        PlayerMark.X.to_string⟩ ∧
    (handle_join_entry st room_id enc dead).socket_out =
      [WsOut.text (jsonOrEmpty enc (mkRoomResponse
        ⟨room_id, roomCount st room_id, "Room is full", false,
          PlayerMark.X.to_string⟩)),
       WsOut.close] ∧
    (handle_join_entry st room_id enc dead).admitted = none ∧
    (handle_join_entry st room_id enc dead).join_fanout.sends = [] ∧
    (handle_join_entry st room_id enc dead).loops_started = false := by
  simp [handle_join_entry, reserve_full h, rejectionSocketOut, rejectionResponse]

/-- Witness for C5 at the full room `"r1"` (count 2). -/
theorem room_full_rejection_witness :
    (handle_join_entry stXO "r1" encOk liveAll).state = stXO ∧
    (handle_join_entry stXO "r1" encOk liveAll).rejection =
      some ⟨"r1", 2, "Room is full", false, PlayerMark.X.to_string⟩ ∧
    (handle_join_entry stXO "r1" encOk liveAll).socket_out =
      [WsOut.text (jsonOrEmpty encOk (mkRoomResponse
        ⟨"r1", 2, "Room is full", false, PlayerMark.X.to_string⟩)),
       WsOut.close] ∧
    (handle_join_entry stXO "r1" encOk liveAll).admitted = none ∧
    (handle_join_entry stXO "r1" encOk liveAll).join_fanout.sends = [] ∧
    (handle_join_entry stXO "r1" encOk liveAll).loops_started = false :=
  room_full_rejection stXO "r1" encOk liveAll (by decide)

/-- C6 counterexample: feeding the inbound loop a binary (non-text) frame
followed by a text frame, the loop consumes both items and still relays
the later text — so a non-text frame does not terminate the loop, contrary
to the claim (under which nothing after the binary frame would be read
and nothing would be relayed). -/
theorem recv_loop_nontext_counterexample :
    (recv_loop stXO "r1" liveAll
        [RecvItem.ok Frame.binary, RecvItem.ok (Frame.text "move:4")]).2 =
      (2, ["move:4"]) ∧
    ((2 : Nat), (["move:4"] : List String)) ≠ ((1 : Nat), ([] : List String)) := by
  exact ⟨rfl, by simp⟩

/-- C6 (amended): on the inbound loop a transport-level read error
terminates the loop (that item alone is consumed, nothing further is
relayed); a non-text frame (binary/ping/pong/close) is skipped — the
registry is untouched and the loop continues with the rest of the
stream; a text frame is relayed and the loop likewise continues.  Only
text frames are relayed. -/
theorem recv_loop_frame_handling (st : AppState) (room_id : String)
    (dead : ConnectionId → Bool) :
    (∀ rest, recv_loop st room_id dead (RecvItem.fail :: rest) = (st, 1, [])) ∧
    (∀ rest, recv_loop st room_id dead (RecvItem.ok Frame.binary :: rest) =
      ((recv_loop st room_id dead rest).1,
       (recv_loop st room_id dead rest).2.1 + 1,
       (recv_loop st room_id dead rest).2.2)) ∧
    (∀ rest, recv_loop st room_id dead (RecvItem.ok Frame.ping :: rest) =
      ((recv_loop st room_id dead rest).1,
       (recv_loop st room_id dead rest).2.1 + 1,
       (recv_loop st room_id dead rest).2.2)) ∧
    (∀ rest, recv_loop st room_id dead (RecvItem.ok Frame.pong :: rest) =
      ((recv_loop st room_id dead rest).1,
       (recv_loop st room_id dead rest).2.1 + 1,
       (recv_loop st room_id dead rest).2.2)) ∧
    (∀ rest, recv_loop st room_id dead (RecvItem.ok Frame.close :: rest) =
      ((recv_loop st room_id dead rest).1,
       (recv_loop st room_id dead rest).2.1 + 1,
       (recv_loop st room_id dead rest).2.2)) ∧
    (∀ s rest,
      recv_loop st room_id dead (RecvItem.ok (Frame.text s) :: rest) =
        (((recv_loop (relayBroadcast st room_id s dead).1 room_id dead rest).1,
          (recv_loop (relayBroadcast st room_id s dead).1 room_id dead rest).2.1 + 1,
          s :: (recv_loop (relayBroadcast st room_id s dead).1 room_id dead
            rest).2.2))) := by
  refine ⟨fun rest => rfl, fun rest => rfl, fun rest => rfl, fun rest => rfl,
    fun rest => rfl, fun s rest => rfl⟩

/-- C7: one inbound text frame from a room member is fanned out to every
current member of the room's snapshot — the sender included, since its
own entry is in the snapshot — and every enqueued payload is exactly the
received text, with no envelope wrapping and no inspection. -/
theorem relay_text_verbatim (st : AppState) (room_id : String) (text : String)
    (dead : ConnectionId → Bool) :
    (relayBroadcast st room_id text dead).2.1 =
      (snapshot st room_id).map (fun p => (p.1, text)) ∧
    (∀ p ∈ snapshot st room_id,
      (p.1, text) ∈ (relayBroadcast st room_id text dead).2.1) ∧
    (∀ q ∈ (relayBroadcast st room_id text dead).2.1, q.2 = text) := by
  refine ⟨by simp [relayBroadcast], ?_, ?_⟩
  · intro p hp
    simp only [relayBroadcast]
    exact List.mem_map_of_mem (fun p => (p.1, text)) hp
  · intro q hq
    simp only [relayBroadcast] at hq
    obtain ⟨p, _, hpq⟩ := List.mem_map.mp hq
    rw [← hpq]

/-- Witness for C7: the text `"move:4"` sent in the two-member room is
enqueued verbatim for both members, the sender (connection 0) included. -/
theorem relay_text_verbatim_witness :
    (relayBroadcast stXO "r1" "move:4" liveAll).2.1 =
      [(0, "move:4"), (1, "move:4")] ∧
    ((0 : ConnectionId), "move:4") ∈ (relayBroadcast stXO "r1" "move:4" liveAll).2.1 := by
  have h := relay_text_verbatim stXO "r1" "move:4" liveAll
  refine ⟨?_, h.2.1 (0, PlayerMark.X) (by decide)⟩
  rw [h.1]
  decide

/-- C8: removal is idempotent — removing an id absent from a (nonempty)
room leaves the registry unchanged, the teardown removal on an
already-deleted room is a no-op, and running `cleanup_dead_connections`
again after the room has been deleted changes nothing and sends
nothing, whatever its arguments. -/
theorem removal_idempotent (st : AppState) (room_id : String) (cid : ConnectionId) :
    (∀ room, hmGet st.rooms room_id = some room →
      hmGet room.connections cid = none → room.connections ≠ [] →
      remove_connection st room_id cid = st) ∧
    (hmGet st.rooms room_id = none → remove_connection st room_id cid = st) ∧
    (hmGet st.rooms room_id = none →
      ∀ ds ann ex dead,
        cleanup_dead_connections st room_id ds ann ex dead = (st, [])) := by
  refine ⟨?_, ?_, ?_⟩
  · intro room hroom hcid hne
    unfold remove_connection
    rw [hroom]
    dsimp only
    rw [hmRemove_absent hcid]
    rw [if_neg (by simpa [List.isEmpty_iff] using hne)]
    show (⟨hmInsert st.rooms room_id room, st.next_connection_id⟩ : AppState) = st
    rw [hmInsert_same hroom]
  · intro hnone
    unfold remove_connection
    rw [hnone]
  · intro hnone ds ann ex dead
    by_cases h0 : ds.isEmpty && ann.isNone
    · simp [cleanup_dead_connections, h0]
    · have hsnap : snapshot st room_id = [] := by simp [snapshot, hnone]
      have hrfr : removeFromRoom st room_id ds = st := by
        unfold removeFromRoom
        rw [hnone]
      simp only [cleanup_dead_connections, h0, Bool.false_eq_true, if_false, hsnap]
      cases ann with
      | none => cases ex <;> simp [hrfr]
      | some msg => cases ex <;> simp [hrfr]

/-- Witness for C8: removing the absent id 5 from room `"r1"` is a no-op,
and both teardown removal and cleanup on the absent room `"r2"` are
no-ops. -/
theorem removal_idempotent_witness :
    remove_connection stXO "r1" 5 = stXO ∧
    remove_connection stXO "r2" 7 = stXO ∧
    cleanup_dead_connections stXO "r2" [0, 1] none none liveAll = (stXO, []) := by
  have h1 := (removal_idempotent stXO "r1" 5).1
    ⟨[(0, PlayerMark.X), (1, PlayerMark.O)]⟩ (by decide) (by decide) (by decide)
  have h2 := (removal_idempotent stXO "r2" 7).2.1 (by decide)
  have h3 := (removal_idempotent stXO "r2" 0).2.2 (by decide) [0, 1] none none liveAll
  exact ⟨h1, h2, h3⟩

/-- C9: a failing envelope serialization falls back to the `"\x7b\x7d"`
payload for that one message and never shortens the fan-out: for every
encoder — including ones that fail on some or all envelopes — one payload
is enqueued per snapshot member, each member receiving its serialized
envelope or the fallback; on the rejection path the Close frame likewise
still follows the fallback payload. -/
theorem serialization_failure_fallback (snap : List (ConnectionId × PlayerMark))
    (mk : PlayerMark → RoomStateResponse) (enc : RoomResponse → Option String)
    (dead : ConnectionId → Bool) :
    (envFanout snap mk enc dead).sends.length = snap.length ∧
    (∀ p ∈ snap,
      (p.1, jsonOrEmpty enc (mkRoomResponse (mk p.2))) ∈
        (envFanout snap mk enc dead).sends) ∧
    (∀ r, enc r = none → jsonOrEmpty enc r = "\x7b\x7d") ∧
    (∀ room_id n, enc (mkRoomResponse (rejectionResponse room_id n)) = none →
      rejectionSocketOut enc room_id n = [WsOut.text "\x7b\x7d", WsOut.close]) := by
  refine ⟨by simp [envFanout], ?_, ?_, ?_⟩
  · intro p hp
    simp only [envFanout]
    exact List.mem_map_of_mem (fun p => (p.1, jsonOrEmpty enc (mkRoomResponse (mk p.2)))) hp
  · intro r hr
    simp [jsonOrEmpty, hr]
  · intro room_id n hn
    simp [rejectionSocketOut, jsonOrEmpty, hn]

/-- Witness for C9 with the always-failing encoder on a two-member
snapshot: both members still get a payload — the fallback. -/
theorem serialization_failure_fallback_witness :
    (envFanout [(0, PlayerMark.X), (1, PlayerMark.O)]
        (joinResponse "r1" 2) encNone liveAll).sends.length = 2 ∧
    ((0 : ConnectionId), "\x7b\x7d") ∈
      (envFanout [(0, PlayerMark.X), (1, PlayerMark.O)]
        (joinResponse "r1" 2) encNone liveAll).sends ∧
    rejectionSocketOut encNone "r1" 2 = [WsOut.text "\x7b\x7d", WsOut.close] := by
  have h := serialization_failure_fallback [(0, PlayerMark.X), (1, PlayerMark.O)]
    (joinResponse "r1" 2) encNone liveAll
  refine ⟨h.1, ?_, h.2.2.2 "r1" 2 rfl⟩
  have hm := h.2.1 (0, PlayerMark.X) (by decide)
  simpa [jsonOrEmpty, encNone] using hm

/-- C10: the placeholder `my_mark` of every rejection envelope is the
string `"x"` (`PlayerMark::X.to_string()`), whatever marks the members of
the full room hold — the registry `st` is arbitrary here. -/
theorem rejection_placeholder_mark (st : AppState) (room_id : String)
    (enc : RoomResponse → Option String) (dead : ConnectionId → Bool)
    (h : 2 ≤ roomCount st room_id) :
    ((handle_join_entry st room_id enc dead).rejection).map
      (fun r => r.my_mark) = some "x" := by
  simp [handle_join_entry, reserve_full h, rejectionResponse, PlayerMark.to_string]

/-- Witness for C10 at the full room whose members hold marks X and O. -/
theorem rejection_placeholder_mark_witness :
    ((handle_join_entry stXO "r1" encOk liveAll).rejection).map
      (fun r => r.my_mark) = some "x" :=
  rejection_placeholder_mark stXO "r1" encOk liveAll (by decide)

end TicTacToe
